import Mathlib

/-!
Verification of the profile-analysis core of the pprof-analyzer-mcp
repository (Go package `analyzer`).

The Go code is shallowly embedded: pprof profiles become plain Lean
structures, Go `int64` values become `Int` (no claim under scrutiny depends
on 64-bit wrap-around), Go `float64` computations become `ℚ` (exact
rational arithmetic; the claims under scrutiny are about the algebraic
shape of the formulas, not about rounding), Go maps keyed by function name
become association lists (the code re-sorts every result before output, so
only the key/value contents — never the iteration order — are observable),
and a Go runtime panic (integer division by zero) is modelled by `Option`:
`none` is a panic.
-/

namespace PprofAnalyzer

/-- Sample-type descriptor of a pprof profile (`profile.ValueType`): a
name/unit pair such as "contentions"/"count". -/
structure ValueType where
  type : String
  unit : String
deriving DecidableEq

/-- Function record of a pprof profile (`profile.Function`); only the name
is consumed by the analyzer. -/
structure ProfFunction where
  name : String
deriving DecidableEq

/-- Line of a pprof location (`profile.Line`); the Go `Function` field is a
possibly-nil pointer, hence `Option`. -/
structure Line where
  function : Option ProfFunction
deriving DecidableEq

/-- Location of a pprof sample (`profile.Location`): a list of (possibly
inlined) lines. -/
structure Location where
  line : List Line
deriving DecidableEq

/-- Sample of a pprof profile (`profile.Sample`): a value vector
index-aligned with the profile's sample types, and a call stack whose
element 0 is the top of stack. -/
structure Sample where
  value : List Int
  location : List Location
deriving DecidableEq

/-- Parsed pprof profile (`profile.Profile`), restricted to the fields the
analysis core reads. -/
structure Profile where
  sampleType : List ValueType
  sample : List Sample
deriving DecidableEq

instance : Inhabited Profile := ⟨⟨[], []⟩⟩

/-- Go integer division (truncation toward zero), with a zero divisor
modelled as a runtime panic (`none`), exactly as Go's `/` on `int64`
panics. -/
def goDiv (a b : Int) : Option Int :=
  if b = 0 then none else some (Int.tdiv a b)

/-- First non-nil `Function` name while scanning a line list, mirroring the
`for _, line := range loc.Line { if line.Function != nil { ...; break } }`
loops shared by all analyzers. -/
def firstFunctionNameInLines : List Line → Option String
  | [] => none
  | l :: rest =>
    match l.function with
    | some f => some f.name
    | none => firstFunctionNameInLines rest

/-- Top-of-stack function name as computed by `AnalyzeBlockProfile` /
`AnalyzeMutexProfile`: first location, first non-nil function name, with
the empty name (including the no-name case) replaced by "unknown". -/
def blockTopFunctionName (s : Sample) : String :=
  let base :=
    match s.location with
    | [] => ""
    | loc :: _ => (firstFunctionNameInLines loc.line).getD ""
  if base = "" then "unknown" else base

/-- Index resolution of `AnalyzeBlockProfile` / `AnalyzeMutexProfile`: one
pass over `p.SampleType` keeping the last index whose type is
"contentions" and the last whose type is "delay", both starting at -1. -/
def resolveContentionIndexes (ts : List ValueType) : Int × Int :=
  ts.enum.foldl
    (fun acc p =>
      if p.2.type = "contentions" then (Int.ofNat p.1, acc.2)
      else if p.2.type = "delay" then (acc.1, Int.ofNat p.1)
      else acc)
    (-1, -1)

/-- Aggregated per-function contention data (`BlockContentionStat` /
`MutexContentionStat` during the aggregation loop: the three raw fields
filled in before percentages are derived). -/
structure ContentionAgg where
  contentions : Int
  delayNanos : Int
  avgDelayNanos : Int
deriving DecidableEq

/-- One step of the Go map update `blockData[functionName]`: an existing
entry accumulates contentions and delay (leaving `AvgDelayNanos`
untouched), a fresh entry computes `AvgDelayNanos: delay / contentions`,
which panics (`none`) when `contentions` is zero. -/
def updateContention : List (String × ContentionAgg) → String → Int → Int →
    Option (List (String × ContentionAgg))
  | [], name, c, d =>
    (goDiv d c).map fun avg => [(name, ⟨c, d, avg⟩)]
  | (k, st) :: rest, name, c, d =>
    if k = name then
      some ((k, ⟨st.contentions + c, st.delayNanos + d, st.avgDelayNanos⟩) :: rest)
    else
      (updateContention rest name c d).map fun m => (k, st) :: m

/-- State of the aggregation loop of `AnalyzeBlockProfile` /
`AnalyzeMutexProfile`: the function-keyed map plus the two profile-wide
totals. -/
structure ContentionLoopState where
  data : List (String × ContentionAgg)
  totalContentions : Int
  totalDelay : Int
deriving DecidableEq

/-- Body of the sample loop: a sample with no call stack or with a value
vector not longer than `max contentionIndex delayIndex` is skipped;
otherwise its contentions/delay values are merged into the map and added
to the totals. -/
def contentionStep (ci di : Nat) (st : ContentionLoopState) (s : Sample) :
    Option ContentionLoopState :=
  if s.location.length = 0 ∨ s.value.length ≤ max ci di then some st
  else
    (updateContention st.data (blockTopFunctionName s) (s.value.getD ci 0)
        (s.value.getD di 0)).map fun data =>
      ⟨data, st.totalContentions + s.value.getD ci 0,
        st.totalDelay + s.value.getD di 0⟩

/-- The whole sample loop, from the empty map and zero totals. -/
def runContentionLoop (ci di : Nat) (samples : List Sample) :
    Option ContentionLoopState :=
  samples.foldlM (contentionStep ci di) ⟨[], 0, 0⟩

/-- Fully derived per-function statistic (`BlockContentionStat` /
`MutexContentionStat` as serialized: raw aggregates plus the two
percentages; the display-only `*Formatted` strings are not modelled). -/
structure ContentionStat where
  functionName : String
  contentions : Int
  delayNanos : Int
  avgDelayNanos : Int
  contentionsPct : ℚ
  delayPct : ℚ
deriving DecidableEq

/-- Percentage derivation performed when building the `stats` slice:
`float64(stat.X) / float64(totalX) * 100`, with `float64` modelled by
`ℚ`. -/
def mkContentionStat (totalC totalD : Int) (kv : String × ContentionAgg) :
    ContentionStat :=
  ⟨kv.1, kv.2.contentions, kv.2.delayNanos, kv.2.avgDelayNanos,
    (kv.2.contentions : ℚ) / (totalC : ℚ) * 100,
    (kv.2.delayNanos : ℚ) / (totalD : ℚ) * 100⟩

/-- Insertion step of the descending sort: keeps elements whose key is at
least the inserted key in front, so ties stay in an arbitrary order just
as `sort.Slice` with a strict `>` comparator allows. -/
def insertDescBy {α : Type} {β : Type} [LinearOrder β] (key : α → β) (a : α) :
    List α → List α
  | [] => [a]
  | b :: l => if key a ≤ key b then b :: insertDescBy key a l else a :: b :: l

/-- Model of `sort.Slice(xs, func(i, j) { return key(xs[i]) > key(xs[j]) })`:
any correct sorting algorithm yields a list sorted descending by `key`;
insertion sort is used as the executable model. -/
def sortDescBy {α : Type} {β : Type} [LinearOrder β] (key : α → β) :
    List α → List α
  | [] => []
  | a :: l => insertDescBy key a (sortDescBy key l)

/-- Aggregated single-profile analysis as returned by
`AnalyzeBlockProfile` / `AnalyzeMutexProfile` before rendering: totals and
the stats slice sorted descending by `DelayNanos`. -/
structure ContentionAnalysis where
  totalContentions : Int
  totalDelayNanos : Int
  stats : List ContentionStat
deriving DecidableEq

/-- Outcome of `AnalyzeBlockProfile` / `AnalyzeMutexProfile`:
`missingTypes` is the "cannot find required sample types (contentions,
delay)" error return, `panicked` is a Go runtime panic (integer division
by zero), `noActivity` is the friendly "no blocking/lock contention found"
message returned with a nil error, `ok` is a normal report. -/
inductive ContentionResult where
  | panicked
  | missingTypes
  | noActivity
  | ok (a : ContentionAnalysis)
deriving DecidableEq

/-- Shared core of `AnalyzeBlockProfile` and `AnalyzeMutexProfile` (the two
Go functions are line-for-line identical up to display strings): resolve
the contentions/delay column indexes (error if either stays -1), run the
aggregation loop, short-circuit on a zero contentions total, otherwise
derive percentages and sort by delay descending. -/
def analyzeContentionProfile (p : Profile) : ContentionResult :=
  if (resolveContentionIndexes p.sampleType).1 = -1 ∨
      (resolveContentionIndexes p.sampleType).2 = -1 then .missingTypes
  else
    match runContentionLoop (resolveContentionIndexes p.sampleType).1.toNat
        (resolveContentionIndexes p.sampleType).2.toNat p.sample with
    | none => .panicked
    | some st =>
      if st.totalContentions = 0 then .noActivity
      else
        .ok ⟨st.totalContentions, st.totalDelay,
          sortDescBy (fun s => s.delayNanos)
            (st.data.map (mkContentionStat st.totalContentions st.totalDelay))⟩

/-- Computation part of `AnalyzeBlockProfile` (rendering modelled
separately). -/
def analyzeBlockProfile (p : Profile) : ContentionResult :=
  analyzeContentionProfile p

/-- Computation part of `AnalyzeMutexProfile` (rendering modelled
separately). -/
def analyzeMutexProfile (p : Profile) : ContentionResult :=
  analyzeContentionProfile p

/-- Row limit shared by every text/markdown renderer:
`limit := topN; if limit > len(xs) { limit = len(xs) }`. -/
def renderLimit (topN : Int) (n : Nat) : Int :=
  if topN > (n : Int) then (n : Int) else topN

/-- Ranked rows of the text/markdown rendering of a block/mutex report: the
`for i := 0; i < limit; i++` loop writes exactly one table row per
iteration, built from `stats[i]`; a row is represented here by the stat it
renders. -/
def contentionTableRows (a : ContentionAnalysis) (topN : Int) :
    List ContentionStat :=
  a.stats.take (renderLimit topN a.stats.length).toNat

/-- JSON payload of a block/mutex report (`BlockAnalysisResult` /
`MutexAnalysisResult`): the stats array is the full `stats` slice and
`topN` is recorded as a plain metadata field. -/
structure ContentionJSONResult where
  profileType : String
  totalContentions : Int
  totalDelayNanos : Int
  topN : Int
  blocks : List ContentionStat
deriving DecidableEq

/-- Construction of the JSON result in the `format == "json"` branch of
`AnalyzeBlockProfile`. -/
def contentionJSONResult (a : ContentionAnalysis) (topN : Int) :
    ContentionJSONResult :=
  ⟨"block", a.totalContentions, a.totalDelayNanos, topN, a.stats⟩

/-- Per-function diff entry (`FunctionDiff`; the display-only `*Formatted`
strings are not modelled). -/
structure FunctionDiff where
  functionName : String
  baselineValue : Int
  targetValue : Int
  diffValue : Int
  diffPercentage : ℚ
deriving DecidableEq

/-- Overall diff summary (`DiffSummary`). -/
structure DiffSummary where
  baselineTotal : Int
  targetTotal : Int
  totalDiff : Int
  totalDiffPercent : ℚ
  improvedFuncs : Nat
  regressedFuncs : Nat
  addedFuncs : Nat
  removedFuncs : Nat
deriving DecidableEq

/-- Diff result (`DiffResult`; the `baselineUri`/`targetUri` constants and
rendering are not modelled). -/
structure DiffResult where
  profileType : String
  topN : Int
  functions : List FunctionDiff
  summary : DiffSummary
deriving DecidableEq

/-- Kind-specific column match of `getValueIndex`: the `switch profileType`
inside its loop over `p.SampleType`, returning the first matching index. -/
def findKindIndex (profileType : String) : List (Nat × ValueType) → Option Nat
  | [] => none
  | (i, st) :: rest =>
    if (profileType = "cpu" ∧
          (st.type = "cpu" ∨ (st.type = "samples" ∧ st.unit = "nanoseconds")))
        ∨ ((profileType = "heap" ∨ profileType = "allocs") ∧
          (st.type = "inuse_space" ∨ st.type = "alloc_space"))
        ∨ ((profileType = "mutex" ∨ profileType = "block") ∧ st.type = "delay")
    then some i
    else findKindIndex profileType rest

/-- Embedding of `getValueIndex`: kind-specific first match, then the documented
fallback — index 1 when more than one sample type is declared, index 0
otherwise. Every return in the Go source carries a nil error; the
`Except String` codomain mirrors the `(int, error)` signature. -/
def getValueIndex (p : Profile) (profileType : String) : Except String Nat :=
  match findKindIndex profileType p.sampleType.enum with
  | some i => .ok i
  | none => if 1 < p.sampleType.length then .ok 1 else .ok 0

/-- Top-of-stack function name as computed by `aggregateFunctionValues`:
starts at "unknown" and is overwritten by the first non-nil function name
of the first location (possibly the empty string). -/
def diffTopFunctionName (s : Sample) : String :=
  match s.location with
  | [] => "unknown"
  | loc :: _ => (firstFunctionNameInLines loc.line).getD "unknown"

/-- Go map accumulation `result[name] += value` on an association list. -/
def addToAssoc : List (String × Int) → String → Int → List (String × Int)
  | [], n, v => [(n, v)]
  | (k, x) :: rest, n, v =>
    if k = n then (k, x + v) :: rest else (k, x) :: addToAssoc rest n v

/-- Embedding of `aggregateFunctionValues`: samples with no call stack or with a value
vector not longer than `valueIndex` are skipped; the rest accumulate
`sample.Value[valueIndex]` under the top-of-stack function name. -/
def aggregateFunctionValues (p : Profile) (valueIndex : Nat) :
    List (String × Int) :=
  p.sample.foldl
    (fun m s =>
      if s.location.length = 0 ∨ s.value.length ≤ valueIndex then m
      else addToAssoc m (diffTopFunctionName s) (s.value.getD valueIndex 0))
    []

/-- Go map read with the zero default (`baselineFuncs[name]`). -/
def lookupD (m : List (String × Int)) (k : String) : Int :=
  ((m.lookup k).getD 0)

/-- One entry of `computeFunctionDiffs`: delta and the percentage chain
`if baselineVal > 0 … else if targetVal > 0 { 100.0 } else { 0 }`. -/
def mkFunctionDiff (b t : List (String × Int)) (name : String) : FunctionDiff :=
  let bv := lookupD b name
  let tv := lookupD t name
  let d := tv - bv
  ⟨name, bv, tv, d,
    if 0 < bv then (d : ℚ) / (bv : ℚ) * 100
    else if 0 < tv then 100 else 0⟩

/-- Embedding of `computeFunctionDiffs`: one entry per name in the union of both maps
(the Go `allFuncs` set; list order stands in for the unordered map). -/
def computeFunctionDiffs (b t : List (String × Int)) : List FunctionDiff :=
  ((b.map Prod.fst ++ t.map Prod.fst).eraseDups).map (mkFunctionDiff b t)

/-- Classification counters accumulated by the loop of
`computeDiffSummary`. -/
structure DiffCounts where
  improved : Nat
  regressed : Nat
  added : Nat
  removed : Nat
deriving DecidableEq

/-- Body of the classification loop of `computeDiffSummary`, an if/else-if
chain over each diff entry. -/
def classifyStep (c : DiffCounts) (d : FunctionDiff) : DiffCounts :=
  if d.baselineValue = 0 ∧ 0 < d.targetValue then { c with added := c.added + 1 }
  else if d.targetValue = 0 ∧ 0 < d.baselineValue then
    { c with removed := c.removed + 1 }
  else if d.diffValue < 0 then { c with improved := c.improved + 1 }
  else if 0 < d.diffValue then { c with regressed := c.regressed + 1 }
  else c

/-- Sum of the values of an aggregation map (the `for _, v := range m`
total loops of `computeDiffSummary`). -/
def sumVals (m : List (String × Int)) : Int :=
  (m.map Prod.snd).sum

/-- Embedding of `computeDiffSummary`: grand totals from the two maps and the
classification counters from the full diff list. -/
def computeDiffSummary (b t : List (String × Int)) (diffs : List FunctionDiff) :
    DiffSummary :=
  let baselineTotal := sumVals b
  let targetTotal := sumVals t
  let totalDiff := targetTotal - baselineTotal
  let totalDiffPercent : ℚ :=
    if 0 < baselineTotal then (totalDiff : ℚ) / (baselineTotal : ℚ) * 100 else 0
  let c := diffs.foldl classifyStep ⟨0, 0, 0, 0⟩
  ⟨baselineTotal, targetTotal, totalDiff, totalDiffPercent,
    c.improved, c.regressed, c.added, c.removed⟩

/-- Computation part of `CompareProfiles`: value-column lookup on the
baseline (never an error in the Go source, but the error forwarding is
kept), independent aggregation, diffs sorted descending by absolute
percentage, then the summary over the whole sorted list. Rendering and
JSON marshalling are modelled separately. -/
def compareProfiles (baseline target : Profile) (profileTypeName : String)
    (topN : Int) : Except String DiffResult :=
  match getValueIndex baseline profileTypeName with
  | .error e => .error e
  | .ok valueIndex =>
    let baselineFuncs := aggregateFunctionValues baseline valueIndex
    let targetFuncs := aggregateFunctionValues target valueIndex
    let diffs := sortDescBy (fun d => |d.diffPercentage|)
      (computeFunctionDiffs baselineFuncs targetFuncs)
    let summary := computeDiffSummary baselineFuncs targetFuncs diffs
    .ok ⟨profileTypeName, topN, diffs, summary⟩

/-- Ranked rows of the text/markdown rendering of `formatDiffReport`: the
same `limit` pattern and row loop as the single-profile renderers. -/
def diffTableRows (r : DiffResult) (topN : Int) : List FunctionDiff :=
  r.functions.take (renderLimit topN r.functions.length).toNat

/-- Index of the last sample type with the given name, as computed by the
no-break loops of `extractTimeSeriesData` (`valueIndex`/`objectIndex` are
overwritten on every match). -/
def lastTypeIndex (ts : List ValueType) (ty : String) : Option Nat :=
  ts.enum.foldl (fun acc p => if p.2.type = ty then some p.1 else acc) none

/-- Index of the first sample type with the given name, as computed by the
breaking loop of `analyzeObjectTrends`. -/
def firstTypeIndex (ts : List ValueType) (ty : String) : Option Nat :=
  ts.findIdx? (fun st => st.type = ty)

/-- Conditional total of one value column over the samples of a profile:
`if idx >= 0 && len(sample.Value) > idx { total += sample.Value[idx] }`
inside `extractTimeSeriesData`, with a missing column contributing 0. -/
def columnTotal (p : Profile) (idx : Option Nat) : Int :=
  match idx with
  | none => 0
  | some v =>
    p.sample.foldl
      (fun acc s => if v < s.value.length then acc + s.value.getD v 0 else acc) 0

/-- One time point of `extractTimeSeriesData` (`TimeSeriesData`; the
synthetic wall-clock timestamp is display-only and not modelled). -/
structure TimeSeriesData where
  label : String
  totalBytes : Int
  totalObjects : Int
deriving DecidableEq

/-- Embedding of `extractTimeSeriesData`: one `(label, totalBytes, totalObjects)` point
per profile, in input order, using the last-declared "inuse_space" and
"inuse_objects" columns. -/
def extractTimeSeriesData (profiles : List Profile) (labels : List String) :
    List TimeSeriesData :=
  profiles.enum.map fun pi =>
    ⟨labels.getD pi.1 "",
      columnTotal pi.2 (lastTypeIndex pi.2.sampleType "inuse_space"),
      columnTotal pi.2 (lastTypeIndex pi.2.sampleType "inuse_objects")⟩

/-- Embedding of `getObjectTypeFromSample`: first non-nil function name over all
locations and lines, else "unknown". -/
def getObjectTypeFromSample (s : Sample) : String :=
  (s.location.findSome? (fun loc => firstFunctionNameInLines loc.line)).getD
    "unknown"

/-- Per-profile aggregation of `analyzeObjectTrends`: the `typeValues` map
accumulating `sample.Value[valueIndex]` by object type, skipping samples
with a too-short value vector. -/
def typeValuesOf (p : Profile) (v : Nat) : List (String × Int) :=
  p.sample.foldl
    (fun m s =>
      if s.value.length ≤ v then m
      else addToAssoc m (getObjectTypeFromSample s) (s.value.getD v 0))
    []

/-- The Go assignment `typeDataMap[typeName][i] = value`, creating a fresh
all-zero vector of length `n` for a type seen for the first time. -/
def setTypeValue (n i : Nat) (name : String) (v : Int) :
    List (String × List Int) → List (String × List Int)
  | [] => [(name, (List.replicate n 0).set i v)]
  | (k, vec) :: rest =>
    if k = name then (k, vec.set i v) :: rest
    else (k, vec) :: setTypeValue n i name v rest

/-- Merge of one profile's `typeValues` into `typeDataMap` at time-point
`i` (the `for typeName, value := range typeValues` loop). -/
def mergeTypeValues (n i : Nat) (m : List (String × List Int)) :
    List (String × Int) → List (String × List Int)
  | [] => m
  | (name, v) :: rest => mergeTypeValues n i (setTypeValue n i name v m) rest

/-- The `for i, prof := range profiles` loop of `analyzeObjectTrends`,
building the dense per-type value vectors; a profile with no
"inuse_space" column is skipped entirely. -/
def typeDataMapAux (n : Nat) : Nat → List Profile → List (String × List Int) →
    List (String × List Int)
  | _, [], m => m
  | i, p :: rest, m =>
    typeDataMapAux n (i + 1) rest
      (match firstTypeIndex p.sampleType "inuse_space" with
       | none => m
       | some v => mergeTypeValues n i m (typeValuesOf p v))

/-- Full `typeDataMap` of `analyzeObjectTrends`. -/
def typeDataMap (profiles : List Profile) : List (String × List Int) :=
  typeDataMapAux profiles.length 0 profiles []

/-- Per-type trend (`ObjectTrend`; `formattedValues` is display-only and
not modelled). -/
structure ObjectTrend where
  typeName : String
  values : List Int
  growthBytes : Int
  growthPercent : ℚ
  growthRate : ℚ
  trendDirection : String
deriving DecidableEq

/-- Derivation of one `ObjectTrend` from its dense value vector: growth =
last − first; growth% = growth/first×100 when first > 0, else 0; growth
rate = growth / len(values) / 1024 / 1024 (MB per time point); direction
by the ±10% threshold. -/
def mkObjectTrend (kv : String × List Int) : ObjectTrend :=
  let firstVal := kv.2.headD 0
  let lastVal := kv.2.getLastD 0
  let growthBytes := lastVal - firstVal
  let growthPercent : ℚ :=
    if 0 < firstVal then (growthBytes : ℚ) / (firstVal : ℚ) * 100 else 0
  let growthRate : ℚ := (growthBytes : ℚ) / (kv.2.length : ℚ) / 1024 / 1024
  let trendDirection :=
    if growthPercent > 10 then "increasing"
    else if growthPercent < -10 then "decreasing"
    else "stable"
  ⟨kv.1, kv.2, growthBytes, growthPercent, growthRate, trendDirection⟩

/-- Embedding of `analyzeObjectTrends`: trends for every type in `typeDataMap`, sorted
descending by growth percentage (the `labels` argument is accepted and
unused, as in the Go source; the Go error return is always nil). -/
def analyzeObjectTrends (profiles : List Profile) (_labels : List String) :
    List ObjectTrend :=
  sortDescBy (fun t => t.growthPercent) ((typeDataMap profiles).map mkObjectTrend)

/-- Successful payload of `AnalyzeHeapTimeSeries` (the summary and the
rendering are not needed by any claim and are not modelled). -/
structure TimeSeriesOk where
  series : List TimeSeriesData
  trends : List ObjectTrend
deriving DecidableEq

/-- Outcome of `AnalyzeHeapTimeSeries`: the two precondition errors carry
exactly the counts interpolated into their Go error messages
("at least %d profiles required, got %d" and "label count (%d) does not
match profile count (%d)"), or the analysis payload. -/
inductive TimeSeriesResult where
  | tooFewProfiles (required actual : Nat)
  | labelCountMismatch (labels profiles : Nat)
  | ok (r : TimeSeriesOk)
deriving DecidableEq

/-- Computation part of `AnalyzeHeapTimeSeries`: the two precondition checks
in source order, then extraction and trend analysis. -/
def analyzeHeapTimeSeries (profiles : List Profile) (labels : List String) :
    TimeSeriesResult :=
  if profiles.length < 3 then .tooFewProfiles 3 profiles.length
  else if labels.length ≠ profiles.length then
    .labelCountMismatch labels.length profiles.length
  else
    .ok ⟨extractTimeSeriesData profiles labels,
      analyzeObjectTrends profiles labels⟩

/-- Sample-type list of a well-formed block/mutex profile, used by the
concrete test inputs below. -/
def contentionSampleTypes : List ValueType :=
  [⟨"contentions", "count"⟩, ⟨"delay", "nanoseconds"⟩]

/-- Sample with a single location holding a single line naming `name`. -/
def mkSample (name : String) (vals : List Int) : Sample :=
  ⟨vals, [⟨[⟨some ⟨name⟩⟩]⟩]⟩

/-- Block/mutex profile whose only sample carries contentions 0 (and a
positive delay): the first occurrence of its function evaluates
`delay / contentions` with a zero divisor. -/
def zeroContentionProfile : Profile :=
  ⟨contentionSampleTypes, [mkSample "main.f" [0, 5000000]]⟩

/-- Integer projection of a contention outcome (totals plus, per stat,
name/contentions/delay/average), used to state concrete evaluations
without forcing the normalization of the rational percentage fields. -/
def contentionIntView (r : ContentionResult) :
    Option (Int × Int × List (String × Int × Int × Int)) :=
  match r with
  | .ok a =>
    some (a.totalContentions, a.totalDelayNanos,
      a.stats.map fun s => (s.functionName, s.contentions, s.delayNanos,
        s.avgDelayNanos))
  | _ => none

/-- Name/value-vector projection of the trends of a time-series outcome. -/
def trendValuesView (r : TimeSeriesResult) : Option (List (String × List Int)) :=
  match r with
  | .ok res => some (res.trends.map fun t => (t.typeName, t.values))
  | _ => none

/-- Full projection of the trends of a time-series outcome. -/
def trendFullView (r : TimeSeriesResult) :
    Option (List (String × List Int × Int × ℚ × ℚ × String)) :=
  match r with
  | .ok res =>
    some (res.trends.map fun t => (t.typeName, t.values, t.growthBytes,
      t.growthPercent, t.growthRate, t.trendDirection))
  | _ => none

/-- Per-point totalBytes projection of the series of a time-series
outcome. -/
def seriesBytesView (r : TimeSeriesResult) : Option (List Int) :=
  match r with
  | .ok res => some (res.series.map fun d => d.totalBytes)
  | _ => none

/-- Block/mutex profile aggregating two samples into one function group:
contentions 10/delay 100000000 then contentions 10/delay 300000000. -/
def staleAvgProfile : Profile :=
  ⟨contentionSampleTypes,
    [mkSample "main.slowOperation" [10, 100000000],
     mkSample "main.slowOperation" [10, 300000000]]⟩

/-- Block/mutex profile with the single-sample scenario of the spec:
contentions 10, delay 100000000 ns. -/
def singleAvgProfile : Profile :=
  ⟨contentionSampleTypes, [mkSample "main.slowOperation" [10, 100000000]]⟩

/-- Block/mutex profile with no samples at all. -/
def emptySampleProfile : Profile := ⟨contentionSampleTypes, []⟩

/-- Block/mutex profile whose would-be contentions total is 0, yet whose
single sample (contentions 0, delay 7) is reached by the aggregation loop
before the zero-total check. -/
def zeroTotalPanicProfile : Profile :=
  ⟨contentionSampleTypes, [mkSample "main.g" [0, 7]]⟩

/-- CPU-kind baseline profile aggregating a negative value (-5) for
function "a" (pprof value vectors are signed; delta profiles may carry
negative entries). -/
def negativeBaselineProfile : Profile :=
  ⟨[⟨"cpu", "count"⟩], [mkSample "a" [-5]]⟩

/-- CPU-kind target profile with value 3 for function "a". -/
def smallTargetProfile : Profile :=
  ⟨[⟨"cpu", "count"⟩], [mkSample "a" [3]]⟩

/-- Heap profile with a single "inuse_space" sample of the given value
under function (object type) "T". -/
def growSample (v : Int) : Profile :=
  ⟨[⟨"inuse_space", "bytes"⟩], [mkSample "T" [v]]⟩

/-- Heap profile declaring two "inuse_space" columns with different
per-sample values (5 at index 0, 7 at index 1). -/
def dupInuseProfile : Profile :=
  ⟨[⟨"inuse_space", "bytes"⟩, ⟨"inuse_space", "bytes"⟩],
    [mkSample "T" [5, 7]]⟩

/-- Analysis produced by `analyzeBlockProfile singleAvgProfile`, spelled
out (kept in unreduced rational form so that it is definitionally equal
to the computed result). -/
def singleStatAnalysis : ContentionAnalysis :=
  ⟨10, 100000000, [⟨"main.slowOperation", 10, 100000000, 10000000,
    ((10 : Int) : ℚ) / ((10 : Int) : ℚ) * 100,
    ((100000000 : Int) : ℚ) / ((100000000 : Int) : ℚ) * 100⟩]⟩

/-- CPU-kind baseline with a single sample of value 4 for function "w". -/
def wDiffBase : Profile := ⟨[⟨"cpu", "count"⟩], [mkSample "w" [4]]⟩

/-- CPU-kind target with a single sample of value 6 for function "w". -/
def wDiffTarget : Profile := ⟨[⟨"cpu", "count"⟩], [mkSample "w" [6]]⟩

/-- Diff result produced by
`compareProfiles wDiffBase wDiffTarget "cpu" 5`, spelled out in
unreduced rational form. -/
def wDiffResult : DiffResult :=
  ⟨"cpu", 5, [⟨"w", 4, 6, 2, ((2 : Int) : ℚ) / ((4 : Int) : ℚ) * 100⟩],
    ⟨4, 6, 2, ((2 : Int) : ℚ) / ((4 : Int) : ℚ) * 100, 0, 1, 0, 0⟩⟩

/-- Trend produced by the heap series [0, 0, 2] for object type "T". -/
def wTrend : ObjectTrend := mkObjectTrend ("T", [0, 0, 2])

/-- Sum of the contentions column of the aggregation map. -/
def aggContentionsSum (m : List (String × ContentionAgg)) : Int :=
  (m.map fun kv => kv.2.contentions).sum

/-- Sum of the delay column of the aggregation map. -/
def aggDelaySum (m : List (String × ContentionAgg)) : Int :=
  (m.map fun kv => kv.2.delayNanos).sum

/-- Column sum of the dense per-type vectors at time point `j`. -/
def colSum (j : Nat) (m : List (String × List Int)) : Int :=
  (m.map fun kv => kv.2.getD j 0).sum

/-- Heap profiles for the closure witness: inuse_space values 1, 2, 4. -/
def wSeriesProfiles : List Profile := [growSample 1, growSample 2, growSample 4]

/-- Permutation fact for the insertion step of the descending sort. -/
theorem perm_insertDescBy {α β : Type} [LinearOrder β] (key : α → β) (a : α) :
    ∀ l : List α, (insertDescBy key a l).Perm (a :: l)
  | [] => by simp [insertDescBy]
  | b :: l => by
    rw [insertDescBy]
    by_cases h : key a ≤ key b
    · rw [if_pos h]
      exact ((perm_insertDescBy key a l).cons b).trans (List.Perm.swap a b l)
    · rw [if_neg h]

/-- The descending sort permutes its input. -/
theorem perm_sortDescBy {α β : Type} [LinearOrder β] (key : α → β) :
    ∀ l : List α, (sortDescBy key l).Perm l
  | [] => List.Perm.refl []
  | a :: l =>
    (perm_insertDescBy key a (sortDescBy key l)).trans
      ((perm_sortDescBy key l).cons a)

/-- Inserting into a list sorted descending by `key` keeps it sorted. -/
theorem pairwise_insertDescBy {α β : Type} [LinearOrder β] (key : α → β)
    (a : α) : ∀ l : List α, l.Pairwise (fun x y => key y ≤ key x) →
      (insertDescBy key a l).Pairwise (fun x y => key y ≤ key x)
  | [], _ => by simp [insertDescBy]
  | b :: l, h => by
    rw [List.pairwise_cons] at h
    rw [insertDescBy]
    by_cases hab : key a ≤ key b
    · rw [if_pos hab]
      refine List.pairwise_cons.mpr ⟨?_, pairwise_insertDescBy key a l h.2⟩
      intro y hy
      rcases List.mem_cons.mp ((perm_insertDescBy key a l).mem_iff.mp hy) with
        hya | hyl
      · exact hya ▸ hab
      · exact h.1 y hyl
    · rw [if_neg hab]
      push_neg at hab
      refine List.pairwise_cons.mpr ⟨?_, List.pairwise_cons.mpr h⟩
      intro y hy
      rcases List.mem_cons.mp hy with hyb | hyl
      · exact hyb ▸ hab.le
      · exact (h.1 y hyl).trans hab.le

/-- The descending sort produces a list sorted descending by `key`. -/
theorem pairwise_sortDescBy {α β : Type} [LinearOrder β] (key : α → β) :
    ∀ l : List α, (sortDescBy key l).Pairwise (fun x y => key y ≤ key x)
  | [] => List.Pairwise.nil
  | a :: l => pairwise_insertDescBy key a _ (pairwise_sortDescBy key l)

/-- Sorting preserves the length. -/
theorem length_sortDescBy {α β : Type} [LinearOrder β] (key : α → β)
    (l : List α) : (sortDescBy key l).length = l.length :=
  (perm_sortDescBy key l).length_eq

/-- Sorting preserves any mapped sum. -/
theorem sum_map_sortDescBy {α β : Type} [LinearOrder β] (key : α → β)
    (f : α → Int) (l : List α) :
    ((sortDescBy key l).map f).sum = (l.map f).sum :=
  ((perm_sortDescBy key l).map f).sum_eq

/-- Membership is preserved by the sort. -/
theorem mem_sortDescBy {α β : Type} [LinearOrder β] (key : α → β)
    (l : List α) (x : α) : x ∈ sortDescBy key l ↔ x ∈ l :=
  (perm_sortDescBy key l).mem_iff

/-- C1: the claim states the analyzers never divide by a zero contentions
count and that a sample with contentions 0 cannot crash the analysis; on
the code, a profile whose first sample for a function has contentions 0
makes `AnalyzeBlockProfile` and `AnalyzeMutexProfile` evaluate
`delay / contentions` with divisor 0, a Go runtime panic. -/
theorem contention_zero_divisor_panics :
    analyzeBlockProfile zeroContentionProfile = .panicked ∧
    analyzeMutexProfile zeroContentionProfile = .panicked :=
  ⟨rfl, rfl⟩

/-- C2: the single-sample scenario holds (avgDelayNanos = 10000000), but
`AvgDelayNanos` is computed only when a function group is created and
never recomputed when further samples accumulate: with two samples the
code reports 10000000 while total delay / total contentions =
400000000 / 20 = 20000000. -/
theorem avgDelay_stale_on_multi_sample :
    contentionIntView (analyzeBlockProfile singleAvgProfile) =
      some (10, 100000000,
        [("main.slowOperation", 10, 100000000, 10000000)]) ∧
    contentionIntView (analyzeBlockProfile staleAvgProfile) =
      some (20, 400000000,
        [("main.slowOperation", 20, 400000000, 10000000)]) ∧
    Int.tdiv 400000000 20 = 20000000 ∧ (10000000 : Int) ≠ 20000000 :=
  ⟨rfl, rfl, rfl, by decide⟩

/-- C9: a profile with zero samples does return the friendly
"no activity" outcome with a nil error, but the claimed equivalence
"message iff total is zero" fails on the code: a profile whose samples
all carry contentions 0 (total 0, witnessed by the sum over the
contentions column, index 0 here) panics in the aggregation loop before
the `totalContentions == 0` check is reached. -/
theorem zero_total_message_defeated_by_panic :
    analyzeBlockProfile emptySampleProfile = .noActivity ∧
    analyzeMutexProfile emptySampleProfile = .noActivity ∧
    (zeroTotalPanicProfile.sample.map fun s => s.value.getD 0 0).sum = 0 ∧
    analyzeBlockProfile zeroTotalPanicProfile = .panicked :=
  ⟨rfl, rfl, rfl, rfl⟩

/-- C3 counterexample: the claim says diffPercentage is exactly 100.0 only
when baselineValue = 0 and targetValue > 0, "and 0.0 otherwise". With
baselineValue = -5 and targetValue = 3 (neither `baseline > 0` nor
`baseline = 0`), the code's `else if targetVal > 0` branch still yields
100.0, not the claimed 0.0. -/
theorem diffPercentage_negative_baseline_cx :
    compareProfiles negativeBaselineProfile smallTargetProfile "cpu" 5 =
      .ok ⟨"cpu", 5, [⟨"a", -5, 3, 8, 100⟩], ⟨-5, 3, 8, 0, 0, 1, 0, 0⟩⟩ ∧
    ¬(0 < (-5 : Int)) ∧ ¬((-5 : Int) = 0 ∧ 0 < (3 : Int)) ∧
    (100 : ℚ) ≠ 0 :=
  ⟨rfl, by decide, by decide, by decide⟩

/-- C4 counterexample: for the value sequence [0, 0, 3145728] the code's
growthRate is growthBytes / 3 / 1024 / 1024 = 1 (MB per point), not the
claimed growthBytes / 3 = 1048576. -/
theorem growthRate_mb_conversion_cx :
    trendFullView (analyzeHeapTimeSeries
        [growSample 0, growSample 0, growSample 3145728] ["a", "b", "c"]) =
      some [("T", [0, 0, 3145728], 3145728, 0,
        (3145728 : ℚ) / 3 / 1024 / 1024, "stable")] ∧
    (3145728 : ℚ) / 3 / 1024 / 1024 = 1 ∧
    (3145728 : ℚ) / 3 = 1048576 ∧ (1 : ℚ) ≠ 1048576 :=
  ⟨rfl, by norm_num, by norm_num, by norm_num⟩

/-- C5 counterexample: with 1 profile and 5 labels the label count differs
from the profile count, but the returned error is the too-few-profiles
one (stating 3 and 1), not an error stating the label and profile counts
(5 and 1): the size check precedes the mismatch check. -/
theorem timeseries_precondition_precedence_cx :
    analyzeHeapTimeSeries [⟨[], []⟩] ["a", "b", "c", "d", "e"] =
      .tooFewProfiles 3 1 ∧
    TimeSeriesResult.tooFewProfiles 3 1 ≠ .labelCountMismatch 5 1 :=
  ⟨rfl, by decide⟩

/-- C6 counterexample: with a duplicated "inuse_space" column,
`analyzeObjectTrends` reads the first matching column (value 5) while
`extractTimeSeriesData` reads the last (value 7), so the per-type sum at
each time point (5) differs from the profile-wide total (7). -/
theorem closure_duplicate_column_cx :
    trendValuesView (analyzeHeapTimeSeries
        [dupInuseProfile, dupInuseProfile, dupInuseProfile] ["a", "b", "c"]) =
      some [("T", [5, 5, 5])] ∧
    seriesBytesView (analyzeHeapTimeSeries
        [dupInuseProfile, dupInuseProfile, dupInuseProfile] ["a", "b", "c"]) =
      some [7, 7, 7] ∧
    (([("T", [5, 5, 5])] : List (String × List Int)).map
      (fun kv => kv.2.getD 0 0)).sum = 5 ∧
    (5 : Int) ≠ 7 :=
  ⟨rfl, rfl, rfl, by decide⟩

/-- C5 (amended): the two precondition checks run before any computation
and in source order — fewer than 3 profiles yields the too-few error
carrying the required count 3 and the actual count (taking precedence
even when the label count also mismatches); with at least 3 profiles a
label/profile count mismatch yields the mismatch error carrying both
counts; when both preconditions hold neither error is returned and the
analysis proceeds. -/
theorem timeseries_preconditions_spec :
    (∀ (ps : List Profile) (ls : List String), ps.length < 3 →
      analyzeHeapTimeSeries ps ls = .tooFewProfiles 3 ps.length) ∧
    (∀ (ps : List Profile) (ls : List String), 3 ≤ ps.length →
      ls.length ≠ ps.length →
      analyzeHeapTimeSeries ps ls = .labelCountMismatch ls.length ps.length) ∧
    (∀ (ps : List Profile) (ls : List String), 3 ≤ ps.length →
      ls.length = ps.length →
      analyzeHeapTimeSeries ps ls =
        .ok ⟨extractTimeSeriesData ps ls, analyzeObjectTrends ps ls⟩) := by
  refine ⟨fun ps ls h => ?_, fun ps ls h3 hne => ?_, fun ps ls h3 heq => ?_⟩
  · rw [analyzeHeapTimeSeries, if_pos h]
  · rw [analyzeHeapTimeSeries, if_neg (by omega), if_pos hne]
  · rw [analyzeHeapTimeSeries, if_neg (by omega), if_neg (by omega)]

/-- Witness: the three branches of the precondition theorem at concrete
inputs. -/
theorem timeseries_preconditions_spec_witness :
    analyzeHeapTimeSeries ([] : List Profile) [] = .tooFewProfiles 3 0 ∧
    analyzeHeapTimeSeries [⟨[], []⟩, ⟨[], []⟩, ⟨[], []⟩] ["x"] =
      .labelCountMismatch 1 3 ∧
    analyzeHeapTimeSeries [⟨[], []⟩, ⟨[], []⟩, ⟨[], []⟩] ["x", "y", "z"] =
      .ok ⟨extractTimeSeriesData [⟨[], []⟩, ⟨[], []⟩, ⟨[], []⟩] ["x", "y", "z"],
        analyzeObjectTrends [⟨[], []⟩, ⟨[], []⟩, ⟨[], []⟩] ["x", "y", "z"]⟩ :=
  ⟨timeseries_preconditions_spec.1 [] [] (by decide),
   timeseries_preconditions_spec.2.1 [⟨[], []⟩, ⟨[], []⟩, ⟨[], []⟩] ["x"]
     (by simp) (by simp),
   timeseries_preconditions_spec.2.2 [⟨[], []⟩, ⟨[], []⟩, ⟨[], []⟩]
     ["x", "y", "z"] (by simp) (by simp)⟩

/-- Every branch of `getValueIndex` returns a nil error. -/
theorem getValueIndex_isOk (p : Profile) (kind : String) :
    (getValueIndex p kind).isOk = true := by
  rw [getValueIndex]
  cases findKindIndex kind p.sampleType.enum with
  | none => dsimp only; split <;> rfl
  | some i => rfl

/-- Documented fallback of `getValueIndex` when no kind-specific column
matches: index 1 with more than one declared sample type, else index 0. -/
theorem getValueIndex_fallback (p : Profile) (kind : String)
    (h : findKindIndex kind p.sampleType.enum = none) :
    getValueIndex p kind = .ok (if 1 < p.sampleType.length then 1 else 0) := by
  rw [getValueIndex, h]
  show (if 1 < p.sampleType.length then Except.ok 1 else Except.ok 0) = _
  split <;> rfl

/-- The comparator `CompareProfiles` never fails: its only error forwarding comes from
`getValueIndex`, which always succeeds. -/
theorem compareProfiles_isOk (b t : Profile) (kind : String) (topN : Int) :
    (compareProfiles b t kind topN).isOk = true := by
  have h := getValueIndex_isOk b kind
  rw [compareProfiles]
  cases hgv : getValueIndex b kind with
  | error e => rw [hgv] at h; exact absurd h (by simp [Except.isOk, Except.toBool])
  | ok i => rfl

/-- The single-profile block/mutex analyzers fail fast when a required
column stays unresolved (index -1). -/
theorem analyzeContention_missing_columns (p : Profile)
    (h : (resolveContentionIndexes p.sampleType).1 = -1 ∨
      (resolveContentionIndexes p.sampleType).2 = -1) :
    analyzeContentionProfile p = .missingTypes := by
  rw [analyzeContentionProfile, if_pos h]

/-- C10: the diff comparator's value-column lookup never fails — for every
profile and profile-kind string it returns a nil error, falling back to
index 1 (more than one declared sample type) or 0 otherwise when no
kind-specific column matches — hence `CompareProfiles` never returns a
missing-sample-type error; by contrast the block/mutex analyzers return
their missing-column error whenever a required index stays -1. -/
theorem getValueIndex_never_fails_spec :
    (∀ (p : Profile) (kind : String), (getValueIndex p kind).isOk = true) ∧
    (∀ (p : Profile) (kind : String),
      findKindIndex kind p.sampleType.enum = none →
      getValueIndex p kind = .ok (if 1 < p.sampleType.length then 1 else 0)) ∧
    (∀ (b t : Profile) (kind : String) (topN : Int),
      (compareProfiles b t kind topN).isOk = true) ∧
    (∀ p : Profile,
      (resolveContentionIndexes p.sampleType).1 = -1 ∨
      (resolveContentionIndexes p.sampleType).2 = -1 →
      analyzeContentionProfile p = .missingTypes) :=
  ⟨getValueIndex_isOk, getValueIndex_fallback, compareProfiles_isOk,
    analyzeContention_missing_columns⟩

/-- Witness: the fallback and fail-fast clauses at concrete inputs (an
empty schema with an unrecognized kind, and a schema missing both
contentions and delay). -/
theorem getValueIndex_never_fails_spec_witness :
    (getValueIndex ⟨[], []⟩ "weird").isOk = true ∧
    getValueIndex ⟨[], []⟩ "weird" = .ok 0 ∧
    (compareProfiles ⟨[], []⟩ ⟨[], []⟩ "weird" 5).isOk = true ∧
    analyzeContentionProfile ⟨[⟨"cpu", "nanoseconds"⟩], []⟩ = .missingTypes :=
  ⟨getValueIndex_never_fails_spec.1 ⟨[], []⟩ "weird",
   getValueIndex_never_fails_spec.2.1 ⟨[], []⟩ "weird" rfl,
   getValueIndex_never_fails_spec.2.2.1 ⟨[], []⟩ ⟨[], []⟩ "weird" 5,
   getValueIndex_never_fails_spec.2.2.2 ⟨[⟨"cpu", "nanoseconds"⟩], []⟩
     (Or.inl rfl)⟩

/-- The render-loop limit realizes the `min` with a topN clamped at 0. -/
theorem renderLimit_toNat (topN : Int) (n : Nat) :
    (renderLimit topN n).toNat = min topN.toNat n := by
  rw [renderLimit]; split <;> omega

/-- C8: text/markdown renderings cut the ranked rows at
min(topN, number of groups) while the JSON payloads carry the full group
list with topN kept as a metadata field only — for block/mutex analyses
and for diff reports alike. -/
theorem topn_truncation_asymmetry_spec :
    (∀ (p : Profile) (topN : Int) (a : ContentionAnalysis),
      analyzeContentionProfile p = .ok a →
      (contentionTableRows a topN).length = min topN.toNat a.stats.length ∧
      (contentionJSONResult a topN).blocks.length = a.stats.length ∧
      (contentionJSONResult a topN).topN = topN) ∧
    (∀ (b t : Profile) (kind : String) (topN : Int) (r : DiffResult),
      compareProfiles b t kind topN = .ok r →
      (diffTableRows r topN).length = min topN.toNat r.functions.length ∧
      r.topN = topN) := by
  constructor
  · intro p topN a _
    refine ⟨?_, rfl, rfl⟩
    rw [contentionTableRows, List.length_take, renderLimit_toNat]
    omega
  · intro b t kind topN r h
    have hrows : (diffTableRows r topN).length =
        min topN.toNat r.functions.length := by
      rw [diffTableRows, List.length_take, renderLimit_toNat]
      omega
    refine ⟨hrows, ?_⟩
    rw [compareProfiles] at h
    cases hgv : getValueIndex b kind with
    | error e => rw [hgv] at h; cases h
    | ok i =>
      rw [hgv] at h
      cases h
      rfl

/-- C7: every ranked list is sorted before rendering — block/mutex stats
descending by the delay metric, diff entries descending by the absolute
value of the percentage change, object trends descending by growth
percentage (ties in arbitrary order). -/
theorem ranking_sorted_spec :
    (∀ (p : Profile) (a : ContentionAnalysis),
      analyzeContentionProfile p = .ok a →
      a.stats.Pairwise fun x y => y.delayNanos ≤ x.delayNanos) ∧
    (∀ (b t : Profile) (kind : String) (topN : Int) (r : DiffResult),
      compareProfiles b t kind topN = .ok r →
      r.functions.Pairwise fun x y => |y.diffPercentage| ≤ |x.diffPercentage|) ∧
    (∀ (ps : List Profile) (ls : List String),
      (analyzeObjectTrends ps ls).Pairwise
        fun x y => y.growthPercent ≤ x.growthPercent) := by
  refine ⟨?_, ?_, ?_⟩
  · intro p a h
    rw [analyzeContentionProfile] at h
    split at h
    · exact ContentionResult.noConfusion h
    · split at h
      · exact ContentionResult.noConfusion h
      · split at h
        · exact ContentionResult.noConfusion h
        · cases h
          exact pairwise_sortDescBy (fun s : ContentionStat => s.delayNanos) _
  · intro b t kind topN r h
    rw [compareProfiles] at h
    cases hgv : getValueIndex b kind with
    | error e => rw [hgv] at h; cases h
    | ok i =>
      rw [hgv] at h
      cases h
      exact pairwise_sortDescBy (fun d : FunctionDiff => |d.diffPercentage|) _
  · intro ps ls
    exact pairwise_sortDescBy (fun t : ObjectTrend => t.growthPercent) _

/-- Witness: sortedness of the three concrete ranked lists obtained from
the theorem. -/
theorem ranking_sorted_spec_witness :
    singleStatAnalysis.stats.Pairwise
      (fun x y => y.delayNanos ≤ x.delayNanos) ∧
    wDiffResult.functions.Pairwise
      (fun x y => |y.diffPercentage| ≤ |x.diffPercentage|) ∧
    (analyzeObjectTrends [growSample 0, growSample 0, growSample 2]
      ["a", "b", "c"]).Pairwise
      (fun x y => y.growthPercent ≤ x.growthPercent) :=
  ⟨ranking_sorted_spec.1 singleAvgProfile singleStatAnalysis rfl,
   ranking_sorted_spec.2.1 wDiffBase wDiffTarget "cpu" 5 wDiffResult rfl,
   ranking_sorted_spec.2.2 [growSample 0, growSample 0, growSample 2]
     ["a", "b", "c"]⟩

/-- Witness: the truncation shape at concrete results (one block stat,
one diff entry, topN 5). -/
theorem topn_truncation_asymmetry_spec_witness :
    (contentionTableRows singleStatAnalysis 5).length =
      min (5 : Int).toNat singleStatAnalysis.stats.length ∧
    (contentionJSONResult singleStatAnalysis 5).blocks.length =
      singleStatAnalysis.stats.length ∧
    (contentionJSONResult singleStatAnalysis 5).topN = 5 ∧
    (diffTableRows wDiffResult 5).length =
      min (5 : Int).toNat wDiffResult.functions.length ∧
    wDiffResult.topN = 5 := by
  have h1 := topn_truncation_asymmetry_spec.1 singleAvgProfile 5
    singleStatAnalysis rfl
  have h2 := topn_truncation_asymmetry_spec.2 wDiffBase wDiffTarget "cpu" 5
    wDiffResult rfl
  exact ⟨h1.1, h1.2.1, h1.2.2, h2.1, h2.2⟩

/-- Counting behaviour of the classification loop: starting from counters
`c`, each counter grows by the number of list entries satisfying the
corresponding (mutually exclusive, else-if ordered) classification
predicate. -/
theorem foldl_classifyStep_counts :
    ∀ (l : List FunctionDiff) (c : DiffCounts),
      (l.foldl classifyStep c).added =
        c.added + l.countP (fun d => decide (d.baselineValue = 0 ∧ 0 < d.targetValue)) ∧
      (l.foldl classifyStep c).removed =
        c.removed + l.countP (fun d => decide (d.targetValue = 0 ∧ 0 < d.baselineValue)) ∧
      (l.foldl classifyStep c).improved =
        c.improved + l.countP (fun d => decide (d.diffValue < 0 ∧
          ¬(d.baselineValue = 0 ∧ 0 < d.targetValue) ∧
          ¬(d.targetValue = 0 ∧ 0 < d.baselineValue))) ∧
      (l.foldl classifyStep c).regressed =
        c.regressed + l.countP (fun d => decide (0 < d.diffValue ∧
          ¬(d.baselineValue = 0 ∧ 0 < d.targetValue) ∧
          ¬(d.targetValue = 0 ∧ 0 < d.baselineValue)))
  | [], c => by simp
  | d :: l, c => by
    obtain ⟨ih1, ih2, ih3, ih4⟩ := foldl_classifyStep_counts l (classifyStep c d)
    by_cases h1 : d.baselineValue = 0 ∧ 0 < d.targetValue
    · have hstep : classifyStep c d = { c with added := c.added + 1 } := by
        rw [classifyStep, if_pos h1]
      have h2 : ¬(d.targetValue = 0 ∧ 0 < d.baselineValue) := by
        obtain ⟨hb, ht⟩ := h1
        rintro ⟨ht0, hbp⟩
        omega
      rw [hstep] at ih1 ih2 ih3 ih4
      refine ⟨?_, ?_, ?_, ?_⟩ <;> rw [List.foldl_cons, hstep]
      · rw [ih1, List.countP_cons]
        simp [h1]
        omega
      · rw [ih2, List.countP_cons]
        simp [h2]
      · rw [ih3, List.countP_cons]
        simp [h1]
      · rw [ih4, List.countP_cons]
        simp [h1]
    · by_cases h2 : d.targetValue = 0 ∧ 0 < d.baselineValue
      · have hstep : classifyStep c d = { c with removed := c.removed + 1 } := by
          rw [classifyStep, if_neg h1, if_pos h2]
        rw [hstep] at ih1 ih2 ih3 ih4
        refine ⟨?_, ?_, ?_, ?_⟩ <;> rw [List.foldl_cons, hstep]
        · rw [ih1, List.countP_cons]
          simp [h1]
        · rw [ih2, List.countP_cons]
          simp [h2]
          omega
        · rw [ih3, List.countP_cons]
          simp [h2]
        · rw [ih4, List.countP_cons]
          simp [h2]
      · by_cases h3 : d.diffValue < 0
        · have hstep : classifyStep c d = { c with improved := c.improved + 1 } := by
            rw [classifyStep, if_neg h1, if_neg h2, if_pos h3]
          have h4 : ¬(0 < d.diffValue) := by omega
          rw [hstep] at ih1 ih2 ih3 ih4
          refine ⟨?_, ?_, ?_, ?_⟩ <;> rw [List.foldl_cons, hstep]
          · rw [ih1, List.countP_cons]
            simp [h1]
          · rw [ih2, List.countP_cons]
            simp [h2]
          · rw [ih3, List.countP_cons]
            simp [h1, h2, h3]
            omega
          · rw [ih4, List.countP_cons]
            simp [h4]
        · by_cases h4 : 0 < d.diffValue
          · have hstep : classifyStep c d =
                { c with regressed := c.regressed + 1 } := by
              rw [classifyStep, if_neg h1, if_neg h2, if_neg h3, if_pos h4]
            rw [hstep] at ih1 ih2 ih3 ih4
            refine ⟨?_, ?_, ?_, ?_⟩ <;> rw [List.foldl_cons, hstep]
            · rw [ih1, List.countP_cons]
              simp [h1]
            · rw [ih2, List.countP_cons]
              simp [h2]
            · rw [ih3, List.countP_cons]
              simp [h3]
            · rw [ih4, List.countP_cons]
              simp [h1, h2, h4]
              omega
          · have hstep : classifyStep c d = c := by
              rw [classifyStep, if_neg h1, if_neg h2, if_neg h3, if_neg h4]
            rw [hstep] at ih1 ih2 ih3 ih4
            refine ⟨?_, ?_, ?_, ?_⟩ <;> rw [List.foldl_cons, hstep]
            · rw [ih1, List.countP_cons]
              simp [h1]
            · rw [ih2, List.countP_cons]
              simp [h2]
            · rw [ih3, List.countP_cons]
              simp [h3]
            · rw [ih4, List.countP_cons]
              simp [h4]

/-- C3 (amended): every diff entry satisfies
diffValue = targetValue − baselineValue and the percentage chain of the
source (100.0 whenever baseline ≤ 0 and target > 0 — in particular when
baseline = 0 — and 0.0 when both are ≤ 0); the summary counts over the
entire entry set classify added/removed/improved/regressed exactly as the
claim states. -/
theorem diff_entries_and_summary_spec :
    ∀ (b t : Profile) (kind : String) (topN : Int) (r : DiffResult),
      compareProfiles b t kind topN = .ok r →
      (∀ e ∈ r.functions,
        e.diffValue = e.targetValue - e.baselineValue ∧
        e.diffPercentage =
          (if 0 < e.baselineValue then
            (e.diffValue : ℚ) / (e.baselineValue : ℚ) * 100
           else if 0 < e.targetValue then 100 else 0)) ∧
      r.summary.addedFuncs = r.functions.countP
        (fun d => decide (d.baselineValue = 0 ∧ 0 < d.targetValue)) ∧
      r.summary.removedFuncs = r.functions.countP
        (fun d => decide (d.targetValue = 0 ∧ 0 < d.baselineValue)) ∧
      r.summary.improvedFuncs = r.functions.countP
        (fun d => decide (d.diffValue < 0 ∧
          ¬(d.baselineValue = 0 ∧ 0 < d.targetValue) ∧
          ¬(d.targetValue = 0 ∧ 0 < d.baselineValue))) ∧
      r.summary.regressedFuncs = r.functions.countP
        (fun d => decide (0 < d.diffValue ∧
          ¬(d.baselineValue = 0 ∧ 0 < d.targetValue) ∧
          ¬(d.targetValue = 0 ∧ 0 < d.baselineValue))) := by
  intro b t kind topN r h
  rw [compareProfiles] at h
  cases hgv : getValueIndex b kind with
  | error e => rw [hgv] at h; cases h
  | ok i =>
    rw [hgv] at h
    cases h
    constructor
    · intro e he
      rw [mem_sortDescBy, computeFunctionDiffs] at he
      obtain ⟨n, hn, rfl⟩ := List.mem_map.mp he
      exact ⟨rfl, rfl⟩
    · have hc := foldl_classifyStep_counts
        (sortDescBy (fun d => |d.diffPercentage|)
          (computeFunctionDiffs (aggregateFunctionValues b i)
            (aggregateFunctionValues t i)))
        ⟨0, 0, 0, 0⟩
      exact ⟨by simpa using hc.1, by simpa using hc.2.1,
        by simpa using hc.2.2.1, by simpa using hc.2.2.2⟩

/-- Witness: the summary-count clauses of the diff theorem at the concrete
baseline/target pair with one regressed function. -/
theorem diff_entries_and_summary_spec_witness :
    wDiffResult.summary.addedFuncs = wDiffResult.functions.countP
      (fun d => decide (d.baselineValue = 0 ∧ 0 < d.targetValue)) ∧
    wDiffResult.summary.removedFuncs = wDiffResult.functions.countP
      (fun d => decide (d.targetValue = 0 ∧ 0 < d.baselineValue)) ∧
    wDiffResult.summary.improvedFuncs = wDiffResult.functions.countP
      (fun d => decide (d.diffValue < 0 ∧
        ¬(d.baselineValue = 0 ∧ 0 < d.targetValue) ∧
        ¬(d.targetValue = 0 ∧ 0 < d.baselineValue))) ∧
    wDiffResult.summary.regressedFuncs = wDiffResult.functions.countP
      (fun d => decide (0 < d.diffValue ∧
        ¬(d.baselineValue = 0 ∧ 0 < d.targetValue) ∧
        ¬(d.targetValue = 0 ∧ 0 < d.baselineValue))) := by
  have h := diff_entries_and_summary_spec wDiffBase wDiffTarget "cpu" 5
    wDiffResult rfl
  exact ⟨h.2.1, h.2.2.1, h.2.2.2.1, h.2.2.2.2⟩

/-- C4 (amended): every object trend satisfies growthBytes = last − first,
growthPercent = growth/first×100 when first > 0 and 0 otherwise,
growthRate = growthBytes divided by the number of time points and then by
1024×1024 (the bytes→MB conversion the code applies), and the
±10% trend-direction thresholds. -/
theorem objectTrend_growth_fields_spec :
    ∀ (ps : List Profile) (ls : List String) (t : ObjectTrend),
      t ∈ analyzeObjectTrends ps ls →
      t.growthBytes = t.values.getLastD 0 - t.values.headD 0 ∧
      t.growthPercent = (if 0 < t.values.headD 0 then
        (t.growthBytes : ℚ) / (t.values.headD 0 : ℚ) * 100 else 0) ∧
      t.growthRate = (t.growthBytes : ℚ) / (t.values.length : ℚ) / 1024 / 1024 ∧
      (t.trendDirection = "increasing" ↔ 10 < t.growthPercent) ∧
      (t.trendDirection = "decreasing" ↔ t.growthPercent < -10) ∧
      (t.trendDirection = "stable" ↔
        ¬ 10 < t.growthPercent ∧ ¬ t.growthPercent < -10) := by
  intro ps ls t ht
  rw [analyzeObjectTrends, mem_sortDescBy] at ht
  obtain ⟨kv, hkv, rfl⟩ := List.mem_map.mp ht
  refine ⟨rfl, rfl, rfl, ?_⟩
  have hdir : (mkObjectTrend kv).trendDirection =
      (if 10 < (mkObjectTrend kv).growthPercent then "increasing"
       else if (mkObjectTrend kv).growthPercent < -10 then "decreasing"
       else "stable") := rfl
  rw [hdir]
  by_cases h1 : (10 : ℚ) < (mkObjectTrend kv).growthPercent
  · rw [if_pos h1]
    exact ⟨⟨fun _ => h1, fun _ => rfl⟩,
      ⟨fun hh => absurd hh (by decide), fun hh => absurd h1 (by linarith)⟩,
      ⟨fun hh => absurd hh (by decide), fun hh => absurd h1 hh.1⟩⟩
  · rw [if_neg h1]
    by_cases h2 : (mkObjectTrend kv).growthPercent < -10
    · rw [if_pos h2]
      exact ⟨⟨fun hh => absurd hh (by decide), fun hh => absurd hh h1⟩,
        ⟨fun _ => h2, fun _ => rfl⟩,
        ⟨fun hh => absurd hh (by decide), fun hh => absurd h2 hh.2⟩⟩
    · rw [if_neg h2]
      exact ⟨⟨fun hh => absurd hh (by decide), fun hh => absurd hh h1⟩,
        ⟨fun hh => absurd hh (by decide), fun hh => absurd hh h2⟩,
        ⟨fun _ => ⟨h1, h2⟩, fun _ => rfl⟩⟩

/-- Witness: the growth-field and direction clauses at the concrete trend
of the series [0, 0, 2]. -/
theorem objectTrend_growth_fields_spec_witness :
    wTrend.growthBytes = wTrend.values.getLastD 0 - wTrend.values.headD 0 ∧
    wTrend.growthPercent = (if 0 < wTrend.values.headD 0 then
      (wTrend.growthBytes : ℚ) / (wTrend.values.headD 0 : ℚ) * 100 else 0) ∧
    wTrend.growthRate =
      (wTrend.growthBytes : ℚ) / (wTrend.values.length : ℚ) / 1024 / 1024 ∧
    (wTrend.trendDirection = "increasing" ↔ 10 < wTrend.growthPercent) ∧
    (wTrend.trendDirection = "decreasing" ↔ wTrend.growthPercent < -10) ∧
    (wTrend.trendDirection = "stable" ↔
      ¬ 10 < wTrend.growthPercent ∧ ¬ wTrend.growthPercent < -10) :=
  objectTrend_growth_fields_spec [growSample 0, growSample 0, growSample 2]
    ["a", "b", "c"] wTrend (List.Mem.head _)

/-- A successful map update adds exactly the merged sample values to the
column sums. -/
theorem updateContention_sums :
    ∀ (m : List (String × ContentionAgg)) (name : String) (c d : Int)
      (m' : List (String × ContentionAgg)),
      updateContention m name c d = some m' →
      aggContentionsSum m' = aggContentionsSum m + c ∧
      aggDelaySum m' = aggDelaySum m + d
  | [], name, c, d, m', h => by
    rw [updateContention] at h
    cases hg : goDiv d c with
    | none => rw [hg] at h; cases h
    | some avg =>
      rw [hg] at h
      cases h
      simp [aggContentionsSum, aggDelaySum]
  | (k, st) :: rest, name, c, d, m', h => by
    rw [updateContention] at h
    by_cases hk : k = name
    · rw [if_pos hk] at h
      cases h
      constructor
      · simp only [aggContentionsSum, List.map_cons, List.sum_cons]
        omega
      · simp only [aggDelaySum, List.map_cons, List.sum_cons]
        omega
    · rw [if_neg hk] at h
      cases hrec : updateContention rest name c d with
      | none => rw [hrec] at h; cases h
      | some m'' =>
        rw [hrec] at h
        cases h
        obtain ⟨ih1, ih2⟩ := updateContention_sums rest name c d m'' hrec
        constructor
        · simp only [aggContentionsSum, List.map_cons, List.sum_cons] at ih1 ⊢
          omega
        · simp only [aggDelaySum, List.map_cons, List.sum_cons] at ih2 ⊢
          omega

/-- Loop invariant of the sample loop: the difference between each column
sum of the map and the corresponding profile-wide total is constant. -/
theorem contentionLoop_sums :
    ∀ (samples : List Sample) (ci di : Nat) (st st' : ContentionLoopState),
      List.foldlM (contentionStep ci di) st samples = some st' →
      aggContentionsSum st'.data - st'.totalContentions =
        aggContentionsSum st.data - st.totalContentions ∧
      aggDelaySum st'.data - st'.totalDelay =
        aggDelaySum st.data - st.totalDelay
  | [], ci, di, st, st', h => by
    rw [List.foldlM_nil] at h
    cases h
    exact ⟨rfl, rfl⟩
  | s :: samples, ci, di, st, st', h => by
    rw [List.foldlM_cons] at h
    cases hstep : contentionStep ci di st s with
    | none => rw [hstep] at h; cases h
    | some st1 =>
      rw [hstep] at h
      have ih := contentionLoop_sums samples ci di st1 st' h
      rw [contentionStep] at hstep
      by_cases hskip : s.location.length = 0 ∨ s.value.length ≤ max ci di
      · rw [if_pos hskip] at hstep
        cases hstep
        exact ih
      · rw [if_neg hskip] at hstep
        cases hupd : updateContention st.data (blockTopFunctionName s)
            (s.value.getD ci 0) (s.value.getD di 0) with
        | none => rw [hupd] at hstep; cases hstep
        | some data =>
          rw [hupd] at hstep
          cases hstep
          obtain ⟨h1, h2⟩ := updateContention_sums _ _ _ _ _ hupd
          obtain ⟨ih1, ih2⟩ := ih
          constructor
          · simp only at ih1
            omega
          · simp only at ih2
            omega

/-- Closure of the block/mutex aggregation: the per-function contentions
and delay sums of a successful analysis equal the profile-wide totals. -/
theorem contention_closure (p : Profile) (a : ContentionAnalysis)
    (h : analyzeContentionProfile p = .ok a) :
    (a.stats.map fun s => s.contentions).sum = a.totalContentions ∧
    (a.stats.map fun s => s.delayNanos).sum = a.totalDelayNanos := by
  rw [analyzeContentionProfile] at h
  by_cases hidx : (resolveContentionIndexes p.sampleType).1 = -1 ∨
      (resolveContentionIndexes p.sampleType).2 = -1
  · rw [if_pos hidx] at h
    cases h
  · rw [if_neg hidx] at h
    cases hrun : runContentionLoop (resolveContentionIndexes p.sampleType).1.toNat
        (resolveContentionIndexes p.sampleType).2.toNat p.sample with
    | none => rw [hrun] at h; cases h
    | some st =>
      rw [hrun] at h
      dsimp only at h
      by_cases hz : st.totalContentions = 0
      · rw [if_pos hz] at h
        cases h
      · rw [if_neg hz] at h
        cases h
        dsimp only
        have hsums := contentionLoop_sums p.sample _ _ ⟨[], 0, 0⟩ st hrun
        obtain ⟨h1, h2⟩ := hsums
        constructor
        · rw [sum_map_sortDescBy, List.map_map]
          have hcomp : ((fun s : ContentionStat => s.contentions) ∘
              mkContentionStat st.totalContentions st.totalDelay) =
              fun kv : String × ContentionAgg => kv.2.contentions := rfl
          rw [hcomp]
          have h0 : aggContentionsSum ([] : List (String × ContentionAgg)) = 0 := rfl
          simp only [aggContentionsSum] at h1 h0
          omega
        · rw [sum_map_sortDescBy, List.map_map]
          have hcomp : ((fun s : ContentionStat => s.delayNanos) ∘
              mkContentionStat st.totalContentions st.totalDelay) =
              fun kv : String × ContentionAgg => kv.2.delayNanos := rfl
          rw [hcomp]
          have h0 : aggDelaySum ([] : List (String × ContentionAgg)) = 0 := rfl
          simp only [aggDelaySum] at h2 h0
          omega

/-- Setting one index leaves the other indices of a vector unchanged. -/
theorem getD_set_ne : ∀ (l : List Int) (i j : Nat) (v : Int), i ≠ j →
    (l.set i v).getD j 0 = l.getD j 0
  | [], _, _, _, _ => rfl
  | _ :: _, 0, 0, _, h => absurd rfl h
  | _ :: _, 0, _ + 1, _, _ => rfl
  | _ :: _, _ + 1, 0, _, _ => rfl
  | _ :: l, i + 1, j + 1, v, h =>
    getD_set_ne l i j v (fun hh => h (by rw [hh]))

/-- Setting an in-range index stores the value. -/
theorem getD_set_self : ∀ (l : List Int) (i : Nat) (v : Int), i < l.length →
    (l.set i v).getD i 0 = v
  | [], _, _, h => absurd h (by simp)
  | _ :: _, 0, _, _ => rfl
  | _ :: l, i + 1, v, h => getD_set_self l i v (by simpa using h)

/-- Reading anywhere in an all-zero vector yields 0. -/
theorem getD_replicate_zero : ∀ (n j : Nat),
    (List.replicate n (0 : Int)).getD j 0 = 0
  | 0, _ => rfl
  | _ + 1, 0 => rfl
  | n + 1, j + 1 => getD_replicate_zero n j

/-- In-range read through a map. -/
theorem getD_map_of_lt (g : Profile → Int) : ∀ (l : List Profile) (j : Nat),
    j < l.length → (l.map g).getD j 0 = g (l.getD j default)
  | [], _, h => absurd h (by simp)
  | _ :: _, 0, _ => rfl
  | _ :: l, j + 1, h => getD_map_of_lt g l j (by simpa using h)

/-- Accumulating into the map adds exactly the accumulated value to the
value sum. -/
theorem sumVals_addToAssoc : ∀ (m : List (String × Int)) (n : String) (v : Int),
    sumVals (addToAssoc m n v) = sumVals m + v
  | [], n, v => by simp [addToAssoc, sumVals]
  | (k, x) :: rest, n, v => by
    rw [addToAssoc]
    by_cases hk : k = n
    · rw [if_pos hk]
      simp only [sumVals, List.map_cons, List.sum_cons]
      omega
    · rw [if_neg hk]
      have ih := sumVals_addToAssoc rest n v
      simp only [sumVals, List.map_cons, List.sum_cons] at ih ⊢
      omega

/-- Key list of an accumulation: unchanged for a known key, the key
appended for a fresh one. -/
theorem keys_addToAssoc : ∀ (m : List (String × Int)) (n : String) (v : Int),
    (addToAssoc m n v).map Prod.fst =
      (if n ∈ m.map Prod.fst then m.map Prod.fst else m.map Prod.fst ++ [n])
  | [], n, v => by simp [addToAssoc]
  | (k, x) :: rest, n, v => by
    rw [addToAssoc]
    by_cases hk : k = n
    · rw [if_pos hk]
      subst hk
      simp
    · rw [if_neg hk]
      have ih := keys_addToAssoc rest n v
      simp only [List.map_cons]
      rw [ih]
      by_cases hm : n ∈ rest.map Prod.fst
      · rw [if_pos hm, if_pos (by simp [hm])]
      · have hnk : n ∉ (k :: rest.map Prod.fst) := by
          intro hc
          rcases List.mem_cons.mp hc with hc1 | hc2
          · exact hk hc1.symm
          · exact hm hc2
        rw [if_neg hm, if_neg hnk]
        simp

/-- The per-profile `typeValues` aggregation never produces duplicate
keys. -/
theorem nodup_keys_typeValues_fold :
    ∀ (samples : List Sample) (v : Nat) (m : List (String × Int)),
      (m.map Prod.fst).Nodup →
      ((samples.foldl
        (fun m s =>
          if s.value.length ≤ v then m
          else addToAssoc m (getObjectTypeFromSample s) (s.value.getD v 0)) m).map
          Prod.fst).Nodup
  | [], _, _, h => h
  | s :: ss, v, m, h => by
    rw [List.foldl_cons]
    apply nodup_keys_typeValues_fold ss v
    by_cases hc : s.value.length ≤ v
    · rw [if_pos hc]
      exact h
    · rw [if_neg hc, keys_addToAssoc]
      by_cases hmem : getObjectTypeFromSample s ∈ m.map Prod.fst
      · rw [if_pos hmem]
        exact h
      · rw [if_neg hmem]
        simp [List.nodup_append, h, hmem]

/-- Key-distinctness of `typeValuesOf`. -/
theorem nodup_keys_typeValuesOf (p : Profile) (v : Nat) :
    ((typeValuesOf p v).map Prod.fst).Nodup := by
  rw [typeValuesOf]
  exact nodup_keys_typeValues_fold p.sample v [] (by simp)

/-- The value sum of the per-profile `typeValues` aggregation equals the
conditional column total, because both skip exactly the samples whose
value vector is too short. -/
theorem sumVals_typeValues_fold :
    ∀ (samples : List Sample) (v : Nat) (m : List (String × Int)) (acc : Int),
      sumVals (samples.foldl
        (fun m s =>
          if s.value.length ≤ v then m
          else addToAssoc m (getObjectTypeFromSample s) (s.value.getD v 0)) m) -
        sumVals m =
      samples.foldl
        (fun acc s =>
          if v < s.value.length then acc + s.value.getD v 0 else acc) acc - acc
  | [], _, _, _ => by simp
  | s :: ss, v, m, acc => by
    rw [List.foldl_cons, List.foldl_cons]
    by_cases hc : v < s.value.length
    · rw [if_neg (by omega), if_pos hc]
      have ih := sumVals_typeValues_fold ss v
        (addToAssoc m (getObjectTypeFromSample s) (s.value.getD v 0))
        (acc + s.value.getD v 0)
      have hadd := sumVals_addToAssoc m (getObjectTypeFromSample s)
        (s.value.getD v 0)
      omega
    · rw [if_pos (by omega), if_neg hc]
      exact sumVals_typeValues_fold ss v m acc

/-- Value sum of `typeValuesOf` as the conditional column total. -/
theorem sumVals_typeValuesOf (p : Profile) (v : Nat) :
    sumVals (typeValuesOf p v) = columnTotal p (some v) := by
  have h := sumVals_typeValues_fold p.sample v [] 0
  rw [typeValuesOf, columnTotal]
  have h0 : sumVals ([] : List (String × Int)) = 0 := rfl
  omega

/-- A map of all-zero columns has column sum 0. -/
theorem colSum_eq_zero : ∀ (m : List (String × List Int)) (j : Nat),
    (∀ kv ∈ m, (kv.2 : List Int).getD j 0 = 0) → colSum j m = 0
  | [], _, _ => rfl
  | kv :: rest, j, h => by
    have ih := colSum_eq_zero rest j
      (fun kv hkv => h kv (List.mem_cons_of_mem _ hkv))
    simp only [colSum, List.map_cons, List.sum_cons] at ih ⊢
    rw [h kv (List.mem_cons_self _ _), ih]
    omega

/-- The update `setTypeValue` keeps every vector at length `n`. -/
theorem setTypeValue_length : ∀ (m : List (String × List Int)) (n i : Nat)
    (name : String) (v : Int),
    (∀ kv ∈ m, (kv.2 : List Int).length = n) →
    ∀ kv ∈ setTypeValue n i name v m, (kv.2 : List Int).length = n
  | [], n, i, name, v, _, kv, hkv => by
    rw [setTypeValue] at hkv
    rcases List.mem_singleton.mp hkv with rfl
    simp
  | (k, vec) :: rest, n, i, name, v, h, kv, hkv => by
    rw [setTypeValue] at hkv
    by_cases hk : k = name
    · rw [if_pos hk] at hkv
      rcases List.mem_cons.mp hkv with rfl | hkv'
      · simpa using h (k, vec) (List.mem_cons_self _ _)
      · exact h kv (List.mem_cons_of_mem _ hkv')
    · rw [if_neg hk] at hkv
      rcases List.mem_cons.mp hkv with rfl | hkv'
      · exact h (k, vec) (List.mem_cons_self _ _)
      · exact setTypeValue_length rest n i name v
          (fun kv hkv => h kv (List.mem_cons_of_mem _ hkv)) kv hkv'

/-- The update `setTypeValue` at column `i` leaves every other column all-zero. -/
theorem setTypeValue_getD_ne : ∀ (m : List (String × List Int)) (n i j : Nat)
    (name : String) (v : Int), j ≠ i →
    (∀ kv ∈ m, (kv.2 : List Int).getD j 0 = 0) →
    ∀ kv ∈ setTypeValue n i name v m, (kv.2 : List Int).getD j 0 = 0
  | [], n, i, j, name, v, hj, _, kv, hkv => by
    rw [setTypeValue] at hkv
    rcases List.mem_singleton.mp hkv with rfl
    rw [getD_set_ne _ _ _ _ (fun hh => hj hh.symm), getD_replicate_zero]
  | (k, vec) :: rest, n, i, j, name, v, hj, h, kv, hkv => by
    rw [setTypeValue] at hkv
    by_cases hk : k = name
    · rw [if_pos hk] at hkv
      rcases List.mem_cons.mp hkv with rfl | hkv'
      · rw [getD_set_ne _ _ _ _ (fun hh => hj hh.symm)]
        exact h (k, vec) (List.mem_cons_self _ _)
      · exact h kv (List.mem_cons_of_mem _ hkv')
    · rw [if_neg hk] at hkv
      rcases List.mem_cons.mp hkv with rfl | hkv'
      · exact h (k, vec) (List.mem_cons_self _ _)
      · exact setTypeValue_getD_ne rest n i j name v hj
          (fun kv hkv => h kv (List.mem_cons_of_mem _ hkv)) kv hkv'

/-- Every entry of `setTypeValue` either carries the written key or comes
unchanged from the original map. -/
theorem setTypeValue_mem : ∀ (m : List (String × List Int)) (n i : Nat)
    (name : String) (v : Int),
    ∀ kv ∈ setTypeValue n i name v m, kv.1 = name ∨ kv ∈ m
  | [], n, i, name, v, kv, hkv => by
    rw [setTypeValue] at hkv
    rcases List.mem_singleton.mp hkv with rfl
    exact Or.inl rfl
  | (k, vec) :: rest, n, i, name, v, kv, hkv => by
    rw [setTypeValue] at hkv
    by_cases hk : k = name
    · rw [if_pos hk] at hkv
      rcases List.mem_cons.mp hkv with rfl | hkv'
      · exact Or.inl hk
      · exact Or.inr (List.mem_cons_of_mem _ hkv')
    · rw [if_neg hk] at hkv
      rcases List.mem_cons.mp hkv with rfl | hkv'
      · exact Or.inr (List.mem_cons_self _ _)
      · rcases setTypeValue_mem rest n i name v kv hkv' with hn | hm
        · exact Or.inl hn
        · exact Or.inr (List.mem_cons_of_mem _ hm)

/-- The update `setTypeValue` does not change the sums of the other columns. -/
theorem colSum_setTypeValue_ne : ∀ (m : List (String × List Int)) (n i j : Nat)
    (name : String) (v : Int), j ≠ i →
    colSum j (setTypeValue n i name v m) = colSum j m
  | [], n, i, j, name, v, hj => by
    rw [setTypeValue]
    simp only [colSum, List.map_cons, List.map_nil, List.sum_cons, List.sum_nil]
    rw [getD_set_ne _ _ _ _ (fun hh => hj hh.symm), getD_replicate_zero]
    omega
  | (k, vec) :: rest, n, i, j, name, v, hj => by
    rw [setTypeValue]
    by_cases hk : k = name
    · rw [if_pos hk]
      simp only [colSum, List.map_cons, List.sum_cons]
      rw [getD_set_ne _ _ _ _ (fun hh => hj hh.symm)]
    · rw [if_neg hk]
      have ih := colSum_setTypeValue_ne rest n i j name v hj
      simp only [colSum, List.map_cons, List.sum_cons] at ih ⊢
      omega

/-- The update `setTypeValue` adds the written value to the sum of column `i`,
provided the entry it targets held 0 there. -/
theorem colSum_setTypeValue_self : ∀ (m : List (String × List Int)) (n i : Nat)
    (name : String) (v : Int), i < n →
    (∀ kv ∈ m, (kv.2 : List Int).length = n) →
    (∀ kv ∈ m, kv.1 = name → (kv.2 : List Int).getD i 0 = 0) →
    colSum i (setTypeValue n i name v m) = colSum i m + v
  | [], n, i, name, v, hin, _, _ => by
    rw [setTypeValue]
    simp only [colSum, List.map_cons, List.map_nil, List.sum_cons, List.sum_nil]
    rw [getD_set_self _ _ _ (by simpa using hin)]
    omega
  | (k, vec) :: rest, n, i, name, v, hin, hlen, hzero => by
    rw [setTypeValue]
    by_cases hk : k = name
    · rw [if_pos hk]
      simp only [colSum, List.map_cons, List.sum_cons]
      rw [getD_set_self _ _ _
        (by rw [hlen (k, vec) (List.mem_cons_self _ _)]; exact hin)]
      rw [hzero (k, vec) (List.mem_cons_self _ _) hk]
      omega
    · rw [if_neg hk]
      have ih := colSum_setTypeValue_self rest n i name v hin
        (fun kv hkv => hlen kv (List.mem_cons_of_mem _ hkv))
        (fun kv hkv => hzero kv (List.mem_cons_of_mem _ hkv))
      simp only [colSum, List.map_cons, List.sum_cons] at ih ⊢
      omega

/-- The merge `mergeTypeValues` keeps every vector at length `n`. -/
theorem mergeTypeValues_length : ∀ (L : List (String × Int))
    (m : List (String × List Int)) (n i : Nat),
    (∀ kv ∈ m, (kv.2 : List Int).length = n) →
    ∀ kv ∈ mergeTypeValues n i m L, (kv.2 : List Int).length = n
  | [], m, n, i, h => h
  | (name, v) :: rest, m, n, i, h => by
    rw [mergeTypeValues]
    exact mergeTypeValues_length rest _ n i (setTypeValue_length m n i name v h)

/-- The merge `mergeTypeValues` at point `i` leaves the other columns all-zero. -/
theorem mergeTypeValues_getD_ne : ∀ (L : List (String × Int))
    (m : List (String × List Int)) (n i j : Nat), j ≠ i →
    (∀ kv ∈ m, (kv.2 : List Int).getD j 0 = 0) →
    ∀ kv ∈ mergeTypeValues n i m L, (kv.2 : List Int).getD j 0 = 0
  | [], m, n, i, j, _, h => h
  | (name, v) :: rest, m, n, i, j, hj, h => by
    rw [mergeTypeValues]
    exact mergeTypeValues_getD_ne rest _ n i j hj
      (setTypeValue_getD_ne m n i j name v hj h)

/-- The merge `mergeTypeValues` does not change the sums of the other columns. -/
theorem colSum_mergeTypeValues_ne : ∀ (L : List (String × Int))
    (m : List (String × List Int)) (n i j : Nat), j ≠ i →
    colSum j (mergeTypeValues n i m L) = colSum j m
  | [], m, n, i, j, _ => rfl
  | (name, v) :: rest, m, n, i, j, hj => by
    rw [mergeTypeValues]
    rw [colSum_mergeTypeValues_ne rest _ n i j hj]
    exact colSum_setTypeValue_ne m n i j name v hj

/-- Merging a duplicate-free batch into column `i` adds exactly the batch
sum, provided the targeted entries held 0 in that column. -/
theorem colSum_mergeTypeValues_self : ∀ (L : List (String × Int))
    (m : List (String × List Int)) (n i : Nat), i < n →
    (L.map Prod.fst).Nodup →
    (∀ kv ∈ m, (kv.2 : List Int).length = n) →
    (∀ kv ∈ m, kv.1 ∈ L.map Prod.fst → (kv.2 : List Int).getD i 0 = 0) →
    colSum i (mergeTypeValues n i m L) = colSum i m + sumVals L
  | [], m, n, i, _, _, _, _ => by
    rw [mergeTypeValues]
    have : sumVals ([] : List (String × Int)) = 0 := rfl
    omega
  | (name, v) :: rest, m, n, i, hin, hnodup, hlen, hzero => by
    rw [mergeTypeValues]
    have hnodup' : (name :: rest.map Prod.fst).Nodup := hnodup
    have hnd := List.nodup_cons.mp hnodup'
    have hset := colSum_setTypeValue_self m n i name v hin hlen
      (fun kv hkv hk => hzero kv hkv (by simp [hk]))
    have ih := colSum_mergeTypeValues_self rest (setTypeValue n i name v m) n i
      hin hnd.2 (setTypeValue_length m n i name v hlen) ?_
    · have hcons : sumVals ((name, v) :: rest) = v + sumVals rest := by
        simp [sumVals]
      omega
    · intro kv hkv hmem
      rcases setTypeValue_mem m n i name v kv hkv with hn | hm
      · exact absurd (hn ▸ hmem) hnd.1
      · exact hzero kv hm (List.mem_cons_of_mem _ hmem)

/-- Invariant of the `typeDataMap` construction: on a map whose columns
from `i` on are all-zero, processing the profiles `ps` starting at
time-point `i` leaves columns before `i` untouched and fills each column
`i + k` with the conditional total of profile `ps[k]` — provided each
profile's first and last "inuse_space" columns coincide. -/
theorem typeDataMapAux_colSum (n : Nat) :
    ∀ (ps : List Profile) (i : Nat) (m : List (String × List Int)),
      (∀ kv ∈ m, (kv.2 : List Int).length = n) →
      (∀ kv ∈ m, ∀ j, i ≤ j → (kv.2 : List Int).getD j 0 = 0) →
      (∀ p ∈ ps, firstTypeIndex p.sampleType "inuse_space" =
        lastTypeIndex p.sampleType "inuse_space") →
      ∀ j, j < n →
        (j < i → colSum j (typeDataMapAux n i ps m) = colSum j m) ∧
        (i ≤ j → j < i + ps.length →
          colSum j (typeDataMapAux n i ps m) =
            columnTotal (ps.getD (j - i) default)
              (lastTypeIndex (ps.getD (j - i) default).sampleType
                "inuse_space"))
  | [], i, m, _, _, _, j, _ => by
    constructor
    · intro _
      rfl
    · intro h1 h2
      simp only [List.length_nil] at h2
      omega
  | p :: rest, i, m, hlen, hzero, hfl, j, hj => by
    rw [typeDataMapAux]
    cases hfi : firstTypeIndex p.sampleType "inuse_space" with
    | none =>
      have ih := typeDataMapAux_colSum n rest (i + 1) m hlen
        (fun kv hkv j2 hij => hzero kv hkv j2 (by omega))
        (fun q hq => hfl q (List.mem_cons_of_mem _ hq))
      constructor
      · intro hji
        exact (ih j hj).1 (by omega)
      · intro hij hlt
        by_cases hji : j = i
        · subst hji
          have h1 := (ih j hj).1 (by omega)
          have hz : colSum j m = 0 :=
            colSum_eq_zero m j (fun kv hkv => hzero kv hkv j (by omega))
          have hlast : lastTypeIndex p.sampleType "inuse_space" = none := by
            rw [← hfl p (List.mem_cons_self _ _), hfi]
          rw [show j - j = 0 from by omega, List.getD_cons_zero, hlast]
          exact h1.trans hz
        · have h2 := (ih j hj).2 (by omega)
            (by simp only [List.length_cons] at hlt; omega)
          have hidx : j - i = (j - (i + 1)) + 1 := by omega
          rw [hidx, List.getD_cons_succ]
          exact h2
    | some v =>
      have hlen' := mergeTypeValues_length (typeValuesOf p v) m n i hlen
      have hzero' : ∀ kv ∈ mergeTypeValues n i m (typeValuesOf p v),
          ∀ j2, i + 1 ≤ j2 → (kv.2 : List Int).getD j2 0 = 0 := by
        intro kv hkv j2 hj2
        exact mergeTypeValues_getD_ne (typeValuesOf p v) m n i j2 (by omega)
          (fun kv hkv => hzero kv hkv j2 (by omega)) kv hkv
      have ih := typeDataMapAux_colSum n rest (i + 1)
        (mergeTypeValues n i m (typeValuesOf p v)) hlen' hzero'
        (fun q hq => hfl q (List.mem_cons_of_mem _ hq))
      constructor
      · intro hji
        have h1 := (ih j hj).1 (by omega)
        have h2 := colSum_mergeTypeValues_ne (typeValuesOf p v) m n i j
          (by omega)
        exact h1.trans h2
      · intro hij hlt
        by_cases hji : j = i
        · subst hji
          have h1 := (ih j hj).1 (by omega)
          have hmerge := colSum_mergeTypeValues_self (typeValuesOf p v) m n j hj
            (nodup_keys_typeValuesOf p v) hlen
            (fun kv hkv _ => hzero kv hkv j (by omega))
          have hz : colSum j m = 0 :=
            colSum_eq_zero m j (fun kv hkv => hzero kv hkv j (by omega))
          have hsum := sumVals_typeValuesOf p v
          have hlast : lastTypeIndex p.sampleType "inuse_space" = some v := by
            rw [← hfl p (List.mem_cons_self _ _), hfi]
          rw [show j - j = 0 from by omega, List.getD_cons_zero, hlast]
          exact h1.trans (by omega)
        · have h2 := (ih j hj).2 (by omega)
            (by simp only [List.length_cons] at hlt; omega)
          have hidx : j - i = (j - (i + 1)) + 1 := by omega
          rw [hidx, List.getD_cons_succ]
          exact h2

/-- C6 (amended): aggregation closure. For block/mutex analyses, the sums
of the per-function contentions and delay aggregates equal the
profile-wide totals used as percentage denominators (skipped samples are
excluded from both sides by the same loop). For heap time-series
analysis, at every time point the per-type values sum to that point's
series total — provided each profile declares at most one coherent
"inuse_space" column (first and last occurrences coincide), since the
trend phase reads the first match and the series phase the last. -/
theorem aggregation_closure_spec :
    (∀ (p : Profile) (a : ContentionAnalysis),
      analyzeContentionProfile p = .ok a →
      (a.stats.map fun s => s.contentions).sum = a.totalContentions ∧
      (a.stats.map fun s => s.delayNanos).sum = a.totalDelayNanos) ∧
    (∀ (ps : List Profile) (ls : List String) (r : TimeSeriesOk),
      analyzeHeapTimeSeries ps ls = .ok r →
      (∀ p ∈ ps, firstTypeIndex p.sampleType "inuse_space" =
        lastTypeIndex p.sampleType "inuse_space") →
      ∀ j, j < ps.length →
        (r.trends.map fun t => t.values.getD j 0).sum =
          (r.series.map fun d => d.totalBytes).getD j 0) := by
  refine ⟨contention_closure, ?_⟩
  intro ps ls r h hfl j hjlen
  rw [analyzeHeapTimeSeries] at h
  by_cases h3 : ps.length < 3
  · rw [if_pos h3] at h
    cases h
  · rw [if_neg h3] at h
    by_cases hl : ls.length ≠ ps.length
    · rw [if_pos hl] at h
      cases h
    · rw [if_neg hl] at h
      cases h
      dsimp only
      rw [analyzeObjectTrends, sum_map_sortDescBy, List.map_map]
      have hcomp : ((fun t : ObjectTrend => t.values.getD j 0) ∘ mkObjectTrend) =
          (fun kv : String × List Int => kv.2.getD j 0) := rfl
      rw [hcomp]
      have hseries : (extractTimeSeriesData ps ls).map
          (fun d => d.totalBytes) =
          ps.map (fun p =>
            columnTotal p (lastTypeIndex p.sampleType "inuse_space")) := by
        rw [extractTimeSeriesData, List.map_map]
        have hc2 : ((fun d : TimeSeriesData => d.totalBytes) ∘
            (fun pi : Nat × Profile =>
              (⟨ls.getD pi.1 "",
                columnTotal pi.2 (lastTypeIndex pi.2.sampleType "inuse_space"),
                columnTotal pi.2
                  (lastTypeIndex pi.2.sampleType "inuse_objects")⟩ :
                TimeSeriesData))) =
            ((fun p : Profile =>
              columnTotal p (lastTypeIndex p.sampleType "inuse_space")) ∘
              Prod.snd) := rfl
        rw [hc2, ← List.map_map, List.enum_map_snd]
      rw [hseries, getD_map_of_lt _ ps j hjlen]
      have haux := typeDataMapAux_colSum ps.length ps 0 [] (by simp) (by simp)
        hfl j hjlen
      have h2 := haux.2 (by omega) (by omega)
      rw [show j - 0 = j from by omega] at h2
      exact h2

/-- Witness: closure at the single-stat block analysis and at time point 0
of a concrete 3-point heap series. -/
theorem aggregation_closure_spec_witness :
    (singleStatAnalysis.stats.map fun s => s.contentions).sum =
      singleStatAnalysis.totalContentions ∧
    ((analyzeObjectTrends wSeriesProfiles ["a", "b", "c"]).map
        fun t => t.values.getD 0 0).sum =
      ((extractTimeSeriesData wSeriesProfiles ["a", "b", "c"]).map
        fun d => d.totalBytes).getD 0 0 := by
  constructor
  · exact (aggregation_closure_spec.1 singleAvgProfile singleStatAnalysis rfl).1
  · exact aggregation_closure_spec.2 wSeriesProfiles ["a", "b", "c"]
      ⟨extractTimeSeriesData wSeriesProfiles ["a", "b", "c"],
        analyzeObjectTrends wSeriesProfiles ["a", "b", "c"]⟩ rfl
      (by decide) 0 (by decide)

end PprofAnalyzer
